import Mathlib

/-!
Verification development for the vector-memory abstraction layer of the
keep-it-krispy repository (src/lambda/processor/memory/).  The Python data
model and operations are shallowly embedded: floats become rationals,
fallible backend calls become `Except`-valued oracles passed in as
parameters, and Python string operations are modelled executably over the
character lists of Lean strings.
-/

namespace KrispyMemory

/-! ## Python string primitives

Python `str.split()` splits on runs of whitespace and never yields empty
words.  We model it by a structural recursion over the character list so
that concrete inputs evaluate inside the kernel. -/

def wordsAux : List Char → List Char → List String
  | [], acc => if acc.isEmpty then [] else [String.mk acc.reverse]
  | c :: cs, acc =>
    if c.isWhitespace then
      if acc.isEmpty then wordsAux cs [] else String.mk acc.reverse :: wordsAux cs []
    else wordsAux cs (c :: acc)

/-- Python `text.split()`: whitespace-delimited words, empties dropped. -/
def splitWords (s : String) : List String := wordsAux s.data []

/-- Python `s.lower()` (ASCII case folding, which is all the code relies on). -/
def lowerStr (s : String) : String := String.mk (s.data.map Char.toLower)

/-- Python `s[:n]` (slicing by code points). -/
def strTake (s : String) (n : Nat) : String := String.mk (s.data.take n)

/-- Python truthiness of an optional string: `None` and `""` are falsy. -/
def optTruthy (o : Option String) : Bool := !(o.getD "").data.isEmpty

/-! ## Data model (memory/types.py) -/

structure VectorMetadata where
  meeting_id : String
  s3_key : String
  chunk_index : Nat
  speaker : Option String := none
  text : Option String := none
  user_id : Option String := none
deriving DecidableEq

structure VectorDocument where
  id : String
  vector : List ℚ
  metadata : VectorMetadata
deriving DecidableEq

structure SearchFilter where
  meeting_id : Option String := none
  user_id : Option String := none
  speaker : Option String := none
  date_from : Option String := none
  date_to : Option String := none
deriving DecidableEq

structure SearchOptions where
  top_k : Nat := 10
  filter : Option SearchFilter := none
  include_metadata : Bool := true
  include_vector : Bool := false
  min_score : Option ℚ := none
deriving DecidableEq

structure SearchResult where
  id : String
  score : ℚ
  metadata : VectorMetadata
  vector : Option (List ℚ) := none
deriving DecidableEq

structure MeetingSearchResult where
  meeting_id : String
  s3_key : String
  score : ℚ
  matching_chunks : Nat
  snippets : List String
deriving DecidableEq

structure BatchResult where
  successful : Nat
  failed : Nat
  errors : Option (List (String × String)) := none
deriving DecidableEq

/-- The error entries of a batch result, reading the absent list as empty. -/
def errList (r : BatchResult) : List (String × String) := r.errors.getD []

/-! ## Chunking

`EmbeddingProvider.chunk_text` (embedding_provider.py lines 58-90): if the
word count is at most `chunk_size` the original text is returned whole
(empty list when blank); otherwise a while loop emits the window
`words[start : start + chunk_size]` and advances `start` by
`chunk_size - overlap`.  The loop is embedded with explicit fuel
`words.length`: one unit per emitted chunk, which suffices because for
`overlap < chunk_size` the start strictly increases each iteration, so the
fuel is never exhausted and the embedding agrees with the Python loop. -/

def chunkLoop (words : List α) (chunkSize overlap : Nat) : Nat → Nat → List (List α)
  | 0, _ => []
  | fuel + 1, start =>
    if start < words.length then
      (words.drop start).take chunkSize ::
        chunkLoop words chunkSize overlap fuel (start + (chunkSize - overlap))
    else []

def chunkWindows (words : List α) (chunkSize overlap : Nat) : List (List α) :=
  chunkLoop words chunkSize overlap words.length 0

/-- Word-level content of `EmbeddingProvider.chunk_text`. -/
def epChunkWords (words : List α) (chunkSize overlap : Nat) : List (List α) :=
  if words.length ≤ chunkSize then if words.isEmpty then [] else [words]
  else chunkWindows words chunkSize overlap

/-- `EmbeddingProvider.chunk_text` on strings; each emitted window is joined
with single spaces, mirroring the `" ".join(chunk_words)` in the loop body.
The truthiness test `[text] if text.strip() else []` holds exactly when
`text.split()` is non-empty. -/
def epChunkText (text : String) (chunkSize overlap : Nat) : List String :=
  let words := splitWords text
  if words.length ≤ chunkSize then if words.isEmpty then [] else [text]
  else (chunkWindows words chunkSize overlap).map (String.intercalate " ")

/-- `EmbeddingProvider.chunk_text` with its declared defaults
`chunk_size=500, overlap=100`. -/
def epChunkTextDefault (text : String) : List String := epChunkText text 500 100

/-- Python `range(0, stop, step)` for a positive step, again with fuel
`stop`, which bounds the number of produced indices. -/
def rangeLoop (stop step : Nat) : Nat → Nat → List Nat
  | 0, _ => []
  | fuel + 1, i => if i < stop then i :: rangeLoop stop step fuel (i + step) else []

def rangeStep (stop step : Nat) : List Nat := rangeLoop stop step stop 0

/-- `MemoryProvider.chunk_text` (provider.py lines 210-220), word-level
core: `for i in range(0, len(words), chunk_size - overlap)` collects
`" ".join(words[i : i + chunk_size])`, skipping blank chunks.  A joined
chunk is blank (fails `chunk.strip()`) exactly when its word slice is
empty, since split words are non-empty and whitespace-free. -/
def mpChunkWords (words : List String) (chunkSize overlap : Nat) : List String :=
  (rangeStep words.length (chunkSize - overlap)).foldr
    (fun i chunks =>
      let chunkWs := (words.drop i).take chunkSize
      if chunkWs.isEmpty then chunks else String.intercalate " " chunkWs :: chunks) []

def mpChunkText (text : String) (chunkSize overlap : Nat) : List String :=
  mpChunkWords (splitWords text) chunkSize overlap

/-- `MemoryProvider.chunk_text` with its declared defaults
`chunk_size=500, overlap=50`; this is the chunker `process_transcript`
calls (as `self.chunk_text(content)`). -/
def mpChunkTextDefault (text : String) : List String := mpChunkText text 500 50

/-- The specification phrase "shares exactly `overlap` words": the last
`overlap` words of the first chunk are exactly the first `overlap` words
of the second, and that shared run has length `overlap`. -/
abbrev sharesExactly (ov : Nat) (c c' : List α) : Prop :=
  c.drop (c.length - ov) = c'.take ov ∧ (c'.take ov).length = ov

/-! ## Meeting aggregation (provider.py MemoryProvider._group_by_meeting)

The Python dict keeps keys in insertion order; we model it as an
association list updated in place.  `list.sort(key=..., reverse=True)` is a
stable sort; `List.insertionSort` with the relation
`fun a b => b.score ≤ a.score` is the same stable descending sort. -/

/-- The snippet contributed by one result: appended only when
`result.metadata.text` is truthy. -/
def snippetOf : Option String → List String
  | none => []
  | some s => if s = "" then [] else [s]

structure MeetingAgg where
  meeting_id : String
  s3_key : String
  scores : List ℚ
  snippets : List String
deriving DecidableEq

/-- Python `max` over a non-empty list (the `[]` case never arises). -/
def maxScore : List ℚ → ℚ
  | [] => 0
  | s :: rest => rest.foldl max s

/-- Insert one search result into the meeting map: update the existing
entry for its meeting id, or append a fresh entry at the end. -/
def addResult (m : List MeetingAgg) (r : SearchResult) : List MeetingAgg :=
  match m with
  | [] => [{ meeting_id := r.metadata.meeting_id, s3_key := r.metadata.s3_key,
             scores := [r.score], snippets := snippetOf r.metadata.text }]
  | g :: rest =>
    if g.meeting_id = r.metadata.meeting_id then
      { g with scores := g.scores ++ [r.score],
               snippets := g.snippets ++ snippetOf r.metadata.text } :: rest
    else g :: addResult rest r

/-- The accumulation loop of `_group_by_meeting`: results lacking a meeting
id are dropped. -/
def buildMeetingMap (results : List SearchResult) : List MeetingAgg :=
  results.foldl (fun m r => if r.metadata.meeting_id = "" then m else addResult m r) []

def aggToResult (g : MeetingAgg) : MeetingSearchResult :=
  { meeting_id := g.meeting_id, s3_key := g.s3_key, score := maxScore g.scores,
    matching_chunks := g.scores.length, snippets := g.snippets.take 3 }

/-- `MemoryProvider._group_by_meeting`. -/
def groupByMeeting (results : List SearchResult) : List MeetingSearchResult :=
  List.insertionSort (fun a b => b.score ≤ a.score) ((buildMeetingMap results).map aggToResult)

/-- `MemoryProvider.search_by_meeting`, with `search_by_text` abstracted. -/
def searchByMeeting (searchText : String → List SearchResult) (query : String) :
    List MeetingSearchResult :=
  groupByMeeting (searchText query)

/-- The scores of the results of one meeting, in input order. -/
def scoresFor (results : List SearchResult) (mid : String) : List ℚ :=
  (results.filter (fun r => r.metadata.meeting_id = mid)).map (fun r => r.score)

/-- The truthy snippet texts of the results of one meeting, in input order. -/
def snippetsFor (results : List SearchResult) (mid : String) : List String :=
  (results.filter (fun r => r.metadata.meeting_id = mid)).flatMap
    (fun r => snippetOf r.metadata.text)

/-- The meeting ids of the accumulated groups, in insertion order. -/
def keysOf (m : List MeetingAgg) : List String := m.map (fun g => g.meeting_id)

instance : IsTotal MeetingSearchResult (fun a b => b.score ≤ a.score) :=
  ⟨fun a b => le_total b.score a.score⟩

instance : IsTrans MeetingSearchResult (fun a b => b.score ≤ a.score) :=
  ⟨fun _ _ _ h h2 => le_trans h2 h⟩

/-- Modelled from the words of the specification, for refutation only: the
texts of the up-to-3 highest-scoring chunks of one meeting. -/
def specTopSnippets (results : List SearchResult) (mid : String) : List String :=
  ((List.insertionSort (fun a b => b.score ≤ a.score)
      (results.filter (fun r => r.metadata.meeting_id = mid))).take 3).map
    (fun r => r.metadata.text.getD "")

/-! ## Transcript processing (provider.py MemoryProvider.process_transcript)

The embedding backend and the vector store are parameters.  The returned
record additionally logs the exact inputs passed to `generate_embedding`
and the batches passed to `store_batch`, so that claims about what is and
is not invoked, prefixed, or stored are expressible. -/

/-- The speaker filter of `process_transcript`:
`s and not s.lower().startswith("speaker ") and s.lower() not in ("unknown", "guest")`. -/
def realSpeakers (speakers : List String) : List String :=
  speakers.filter (fun s =>
    !s.data.isEmpty
      && !(("speaker ".data).isPrefixOf (lowerStr s).data)
      && !(lowerStr s == "unknown")
      && !(lowerStr s == "guest"))

/-- Python `f"{i:04d}"`. -/
def pad4 (n : Nat) : String :=
  let s := Nat.repr n
  String.mk (List.replicate (4 - s.data.length) '0') ++ s

structure ProcessLog where
  result : BatchResult
  embedInputs : List String
  storedBatches : List (List VectorDocument)
deriving DecidableEq

def dummyDoc : VectorDocument :=
  { id := "", vector := [], metadata := { meeting_id := "", s3_key := "", chunk_index := 0 } }

def processTranscript (embed : String → List ℚ) (storeB : List VectorDocument → BatchResult)
    (meeting_id s3_key content : String) (speakers : Option (List String))
    (user_id : Option String) : ProcessLog :=
  let chunks := mpChunkTextDefault content
  if chunks.isEmpty then
    { result := { successful := 0, failed := 0 }, embedInputs := [], storedBatches := [] }
  else
    let real := realSpeakers (speakers.getD [])
    let speakerCtx :=
      if real.isEmpty then ""
      else "Meeting participants: " ++ String.intercalate ", " real ++ ". "
    let primarySpeaker := match real with | [] => "unknown" | s :: _ => s
    let docs := chunks.enum.map (fun p =>
      ({ id := meeting_id ++ "_chunk_" ++ pad4 p.1,
         vector := embed (speakerCtx ++ p.2),
         metadata := { meeting_id := meeting_id, s3_key := s3_key, chunk_index := p.1,
                       speaker := some primarySpeaker, text := some (strTake p.2 500),
                       user_id := user_id } } : VectorDocument))
    { result := storeB docs,
      embedInputs := chunks.map (fun c => speakerCtx ++ c),
      storedBatches := [docs] }

/-! ## Backend write operations (ruvector_provider.py, s3_vectors_provider.py)

The HTTP or SDK call of each operation is abstracted as an `Except`-valued
oracle; everything around it is the Python control flow. -/

/-- The shared sub-batching loop of `store_batch`: iterate over the start
indices `range(0, len(documents), batch_size)`; a successful request counts
the whole sub-batch as successful, a failed one counts it failed and
records one `(id, error)` entry per document of that sub-batch.  Returns
`(successful, failed, errors)`. -/
def storeBatchLoop (req : List VectorDocument → Except String Unit) (batchSize : Nat)
    (docs : List VectorDocument) : List Nat → Nat × Nat × List (String × String)
  | [] => (0, 0, [])
  | i :: rest =>
    let batch := (docs.drop i).take batchSize
    let acc := storeBatchLoop req batchSize docs rest
    match req batch with
    | .ok _ => (batch.length + acc.1, acc.2.1, acc.2.2)
    | .error e => (acc.1, batch.length + acc.2.1, batch.map (fun d => (d.id, e)) ++ acc.2.2)

def storeBatchRun (req : List VectorDocument → Except String Unit) (batchSize : Nat)
    (docs : List VectorDocument) : BatchResult :=
  let t := storeBatchLoop req batchSize docs (rangeStep docs.length batchSize)
  { successful := t.1, failed := t.2.1,
    errors := if t.2.2.isEmpty then none else some t.2.2 }

/-- `RuVectorProvider.store_batch`, with `POST /collections/c/vectors/batch`
abstracted as `req`. -/
def ruvStoreBatch : (List VectorDocument → Except String Unit) → Nat →
    List VectorDocument → BatchResult := storeBatchRun

/-- `S3VectorsProvider.store_batch`, with `put_vectors` abstracted as
`req`; identical batching control flow. -/
def s3StoreBatch : (List VectorDocument → Except String Unit) → Nat →
    List VectorDocument → BatchResult := storeBatchRun

/-- The shared `delete_batch`: one backend call for all ids; all-or-nothing
accounting with one `(id, error)` entry per id on failure. -/
def deleteBatchRun (req : List String → Except String Unit) (ids : List String) : BatchResult :=
  match req ids with
  | .ok _ => { successful := ids.length, failed := 0 }
  | .error e => { successful := 0, failed := ids.length,
                  errors := some (ids.map (fun i => (i, e))) }

/-- `RuVectorProvider.delete_batch` (`POST .../vectors/delete` as `req`). -/
def ruvDeleteBatch : (List String → Except String Unit) → List String → BatchResult :=
  deleteBatchRun

/-- `S3VectorsProvider.delete_batch` (`delete_vectors` as `req`). -/
def s3DeleteBatch : (List String → Except String Unit) → List String → BatchResult :=
  deleteBatchRun

/-- `S3VectorsProvider.delete_by_meeting_id`: `list_vectors` with the
meeting-id filter (abstracted as `listVectors`, yielding the matching
keys), then `delete_batch` on the keys; zero matches short-circuit to a
zero-count success; a listing failure is caught and reported as one
failure. -/
def s3DeleteByMeetingId (listVectors : Except String (List String))
    (deleteReq : List String → Except String Unit) (meeting_id : String) : BatchResult :=
  match listVectors with
  | .ok keys =>
    if keys.isEmpty then { successful := 0, failed := 0 }
    else s3DeleteBatch deleteReq keys
  | .error e => { successful := 0, failed := 1, errors := some [(meeting_id, e)] }

/-- `RuVectorProvider.delete_by_meeting_id`: server-side delete-by-filter;
the response carries an optional `deleted` count (`result.get("deleted", 0)`). -/
def ruvDeleteByMeetingId (req : Except String (Option Nat)) (meeting_id : String) : BatchResult :=
  match req with
  | .ok deleted => { successful := deleted.getD 0, failed := 0 }
  | .error e => { successful := 0, failed := 1, errors := some [(meeting_id, e)] }

/-! ## Search (ruvector_provider.py search, s3_vectors_provider.py search) -/

inductive RuvFilterExpr where
  | eqField (fld value : String)
  | conj (filters : List RuvFilterExpr)

/-- `RuVectorProvider._build_filter`: equality terms for the truthy fields,
a single term stands alone, several are wrapped in a conjunction. -/
def buildRuvFilter (sf : Option SearchFilter) : Option RuvFilterExpr :=
  match sf with
  | none => none
  | some f =>
    let fs :=
      (if optTruthy f.meeting_id then [RuvFilterExpr.eqField "meeting_id" (f.meeting_id.getD "")] else [])
        ++ (if optTruthy f.user_id then [RuvFilterExpr.eqField "user_id" (f.user_id.getD "")] else [])
        ++ (if optTruthy f.speaker then [RuvFilterExpr.eqField "speaker" (f.speaker.getD "")] else [])
    match fs with
    | [] => none
    | [single] => some single
    | many => some (RuvFilterExpr.conj many)

structure RuvQuery where
  vector : List ℚ
  top_k : Nat
  include_metadata : Bool
  filter : Option RuvFilterExpr
  include_vectors : Bool

/-- The query body built by `RuVectorProvider.search`; `opts.top_k or 10`
replaces a falsy (zero) top_k by 10. -/
def ruvQueryOf (embedding : List ℚ) (opts : SearchOptions) : RuvQuery :=
  { vector := embedding,
    top_k := if opts.top_k = 0 then 10 else opts.top_k,
    include_metadata := opts.include_metadata,
    filter := buildRuvFilter opts.filter,
    include_vectors := opts.include_vector }

/-- One item of the RuVector query response; a missing score is read as 0.0
by `item.get("score", 0.0)`. -/
structure RuvQueryItem where
  id : String
  score : Option ℚ
  metadata : VectorMetadata
  vector : Option (List ℚ)

/-- `RuVectorProvider.search`: post-filters by `min_score` (skipping items
below the bound) and otherwise passes the response through in order. -/
def ruvSearch (backend : RuvQuery → List RuvQueryItem) (embedding : List ℚ)
    (opts : SearchOptions) : List SearchResult :=
  (backend (ruvQueryOf embedding opts)).filterMap (fun item =>
    let score := item.score.getD 0
    match opts.min_score with
    | some m =>
      if score < m then none
      else some { id := item.id, score := score, metadata := item.metadata, vector := item.vector }
    | none => some { id := item.id, score := score, metadata := item.metadata, vector := item.vector })

structure S3Query where
  queryVector : List ℚ
  topK : Nat
  filter : List (String × String)

def s3QueryOf (embedding : List ℚ) (opts : SearchOptions) : S3Query :=
  { queryVector := embedding,
    topK := if opts.top_k = 0 then 10 else opts.top_k,
    filter :=
      match opts.filter with
      | none => []
      | some f =>
        (if optTruthy f.meeting_id then [("meeting_id", f.meeting_id.getD "")] else [])
          ++ (if optTruthy f.user_id then [("user_id", f.user_id.getD "")] else [])
          ++ (if optTruthy f.speaker then [("speaker", f.speaker.getD "")] else []) }

structure S3QueryItem where
  key : String
  score : Option ℚ
  metadata : VectorMetadata

/-- `item.get("score", 1 - i * 0.05)`: the position-based fallback score of
`S3VectorsProvider.search`. -/
def s3EffScore (idx : Nat) (s : Option ℚ) : ℚ := s.getD (1 - (idx : ℚ) * (1 / 20))

/-- `S3VectorsProvider.search`: enumerate the response, derive scores (with
positional fallback), then apply the `min_score` post-filter. -/
def s3Search (backend : S3Query → List S3QueryItem) (embedding : List ℚ)
    (opts : SearchOptions) : List SearchResult :=
  let resp := backend (s3QueryOf embedding opts)
  let results := resp.enum.map (fun p =>
    ({ id := p.2.key, score := s3EffScore p.1 p.2.score, metadata := p.2.metadata,
       vector := none } : SearchResult))
  match opts.min_score with
  | some m => results.filter (fun r => m ≤ r.score)
  | none => results

/-! ## Dual-write provider (dual_provider.py)

A provider is a record of write operations, each an `Except`-valued
function (a raised Python exception is the `error` case).  Every dual
write runs the primary synchronously and hands its value to the caller;
the identical secondary call is submitted to the worker pool, where
`_write_to_secondary` catches every exception and only logs it — so the
background task always terminates with an `Option`, never an error.  Each
dual operation below returns the pair (value returned to the caller,
outcome of the background secondary task). -/

structure ProviderOps where
  store : VectorDocument → Except String Unit
  store_batch : List VectorDocument → Except String BatchResult
  delete : String → Except String Unit
  delete_batch : List String → Except String BatchResult
  delete_by_meeting_id : String → Except String BatchResult
  update_metadata : String → VectorMetadata → Except String Unit

/-- `DualProvider._write_to_secondary`: returns the result on success and
absorbs any exception into `none` (after logging). -/
def writeToSecondary (outcome : Except String α) : Option α := outcome.toOption

def dualStore (p s : ProviderOps) (doc : VectorDocument) :
    Except String Unit × Option Unit :=
  (p.store doc, writeToSecondary (s.store doc))

def dualStoreBatch (p s : ProviderOps) (docs : List VectorDocument) :
    Except String BatchResult × Option BatchResult :=
  (p.store_batch docs, writeToSecondary (s.store_batch docs))

def dualDelete (p s : ProviderOps) (id : String) :
    Except String Unit × Option Unit :=
  (p.delete id, writeToSecondary (s.delete id))

def dualDeleteBatch (p s : ProviderOps) (ids : List String) :
    Except String BatchResult × Option BatchResult :=
  (p.delete_batch ids, writeToSecondary (s.delete_batch ids))

def dualDeleteByMeetingId (p s : ProviderOps) (meeting_id : String) :
    Except String BatchResult × Option BatchResult :=
  (p.delete_by_meeting_id meeting_id, writeToSecondary (s.delete_by_meeting_id meeting_id))

def dualUpdateMetadata (p s : ProviderOps) (id : String) (md : VectorMetadata) :
    Except String Unit × Option Unit :=
  (p.update_metadata id md, writeToSecondary (s.update_metadata id md))

/-! ## Factory (factory.py) -/

inductive FactoryError where
  | notImplemented (msg : String)
  | valueError (msg : String)
deriving DecidableEq

inductive CreatedProvider where
  | s3vectors
  | ruvector
  | dual
deriving DecidableEq

def validTypes : List String := ["s3-vectors", "ruvector", "dual", "ab-router", "mock"]

/-- `get_provider_type`: reads `MEMORY_PROVIDER` (default `s3-vectors`) and
validates it against the declared set. -/
def getProviderType (envMemoryProvider : Option String) : Except FactoryError String :=
  let t := envMemoryProvider.getD "s3-vectors"
  if t ∈ validTypes then .ok t
  else .error (.valueError ("Invalid MEMORY_PROVIDER: " ++ t))

/-- `create_memory_provider`: `provider_type or get_provider_type()` then
the dispatch chain; `ab-router` and `mock` raise `NotImplementedError`, any
other unknown type raises `ValueError`.  Construction of the three working
providers is abstracted to the tag of what gets built. -/
def createMemoryProvider (providerType : Option String) (envMemoryProvider : Option String) :
    Except FactoryError CreatedProvider :=
  let tE : Except FactoryError String :=
    match providerType with
    | some t => if t = "" then getProviderType envMemoryProvider else .ok t
    | none => getProviderType envMemoryProvider
  match tE with
  | .error e => .error e
  | .ok t =>
    if t = "s3-vectors" then .ok .s3vectors
    else if t = "ruvector" then .ok .ruvector
    else if t = "dual" then .ok .dual
    else if t = "ab-router" then
      .error (.notImplemented "A/B router not yet implemented in Python. Use TypeScript for A/B testing.")
    else if t = "mock" then
      .error (.notImplemented "Mock provider not yet implemented. Set MEMORY_PROVIDER=s3-vectors for testing.")
    else .error (.valueError ("Unknown memory provider type: " ++ t))

/-! ## Concrete inputs used by witnesses and counterexamples -/

def mdOf (mid key : String) (text : Option String) : VectorMetadata :=
  { meeting_id := mid, s3_key := key, chunk_index := 0, text := text }

/-- Three chunk-level results: meeting m1 with scores 9 and 4, meeting m2
with score 7 (the integer-scaled version of the 0.9/0.4/0.7 example). -/
def exC3 : List SearchResult :=
  [{ id := "c1", score := 9, metadata := mdOf "m1" "k1" (some "t1") },
   { id := "c2", score := 4, metadata := mdOf "m1" "k1" (some "t2") },
   { id := "c3", score := 7, metadata := mdOf "m2" "k2" (some "t3") }]

/-- Four results of one meeting whose lowest-scoring chunk comes first. -/
def exC3bad : List SearchResult :=
  [{ id := "c1", score := 1, metadata := mdOf "m1" "k1" (some "a") },
   { id := "c2", score := 9, metadata := mdOf "m1" "k1" (some "b") },
   { id := "c3", score := 8, metadata := mdOf "m1" "k1" (some "c") },
   { id := "c4", score := 7, metadata := mdOf "m1" "k1" (some "d") }]

end KrispyMemory

namespace KrispyMemory

/-! ## Helper lemmas -/

theorem rangeLoop_stop (stop step fuel i : Nat) (h : stop ≤ i) :
    rangeLoop stop step fuel i = [] := by
  cases fuel <;> simp [rangeLoop, Nat.not_lt.mpr h]

theorem rangeStep_single (stop step : Nat) (h0 : 0 < stop) (hle : stop ≤ step) :
    rangeStep stop step = [0] := by
  obtain ⟨n, hn⟩ : ∃ n, stop = n + 1 := ⟨stop - 1, by omega⟩
  unfold rangeStep
  rw [hn]
  show rangeLoop (n + 1) step (n + 1) 0 = [0]
  rw [rangeLoop]
  simp only [Nat.zero_lt_succ, if_true]
  rw [rangeLoop_stop _ _ _ _ (by omega)]

theorem mpChunkWords_small (words : List String) (cs ov : Nat)
    (h0 : 0 < words.length) (hle : words.length ≤ cs - ov) (hcs : words.length ≤ cs) :
    mpChunkWords words cs ov = [String.intercalate " " words] := by
  unfold mpChunkWords
  rw [rangeStep_single _ _ h0 hle]
  simp only [List.foldr_cons, List.foldr_nil, List.drop_zero, List.take_of_length_le hcs]
  simp [List.isEmpty_iff, List.length_pos.mp h0]

/-! ## Claim C10 -/

/-- Claim C10: for every meeting id, s3 key, speakers list and user id,
`process_transcript` on whitespace-only content returns
`BatchResult(successful=0, failed=0)` without invoking the embedding
provider or `store_batch`. -/
theorem c10_blank_transcript (embed : String → List ℚ)
    (storeB : List VectorDocument → BatchResult) (mid key content : String)
    (sp : Option (List String)) (uid : Option String)
    (hblank : splitWords content = []) :
    processTranscript embed storeB mid key content sp uid =
      { result := { successful := 0, failed := 0 }, embedInputs := [], storedBatches := [] } := by
  have hchunks : mpChunkTextDefault content = [] := by
    unfold mpChunkTextDefault mpChunkText
    rw [hblank]
    rfl
  unfold processTranscript
  rw [hchunks]
  rfl

/-- Witness for C10 at whitespace-only content. -/
theorem c10_blank_transcript_witness :
    processTranscript (fun _ => []) (fun docs => ⟨docs.length, 0, none⟩) "m" "k" "  " none none =
      { result := { successful := 0, failed := 0 }, embedInputs := [], storedBatches := [] } :=
  c10_blank_transcript _ _ _ _ _ _ _ (by decide)

/-! ## Claim C6 (corrected) -/

set_option maxRecDepth 40000 in
/-- Counterexample to claim C6 as stated: the `chunk_text` that
`process_transcript` uses (`MemoryProvider.chunk_text`, defaults 500/50)
does not return the whole text as one chunk for word counts up to 500: the
single chunk it does return is whitespace-normalized, and between 451 and
500 words it returns two chunks. -/
theorem c6_counterexample :
    mpChunkTextDefault "a  b" = ["a b"]
    ∧ (["a b"] : List String) ≠ ["a  b"]
    ∧ (mpChunkWords (List.replicate 460 "w") 500 50).length = 2 := by
  refine ⟨by decide, by decide, ?_⟩
  decide

/-- Claim C6, amended: `EmbeddingProvider.chunk_text` has defaults
`chunk_size=500, overlap=100` and returns the whole text as one chunk when
the word count is at most 500 (empty list if blank); the `chunk_text` used
by `process_transcript` (`MemoryProvider.chunk_text`) has defaults
`chunk_size=500, overlap=50`, and only for word counts up to
`chunk_size - overlap = 450` returns exactly one chunk, namely the
whitespace-normalized text (empty list if blank). -/
theorem c6_chunk_text_defaults (text : String) :
    ((splitWords text).length ≤ 500 →
      epChunkTextDefault text = if (splitWords text).isEmpty then [] else [text])
    ∧ ((splitWords text).length ≤ 450 →
      mpChunkTextDefault text =
        if (splitWords text).isEmpty then [] else [String.intercalate " " (splitWords text)]) := by
  constructor
  · intro h
    unfold epChunkTextDefault epChunkText
    simp [h]
  · intro h
    unfold mpChunkTextDefault mpChunkText
    by_cases hw : (splitWords text).isEmpty
    · rw [List.isEmpty_iff] at hw
      rw [hw]
      simp [mpChunkWords, rangeStep, rangeLoop]
    · have h0 : 0 < (splitWords text).length := by
        rw [List.isEmpty_iff] at hw
        exact List.length_pos.mpr hw
      rw [mpChunkWords_small _ _ _ h0 (by omega) (by omega)]
      simp [List.isEmpty_iff, List.length_pos.mp h0]

/-- Witness for C6 on a short two-word text. -/
theorem c6_chunk_text_defaults_witness :
    epChunkTextDefault "hello world" = ["hello world"]
    ∧ mpChunkTextDefault "hello world" = ["hello world"] :=
  ⟨((c6_chunk_text_defaults "hello world").1 (by decide)).trans (by decide),
   ((c6_chunk_text_defaults "hello world").2 (by decide)).trans (by decide)⟩

/-! ## Claim C1 -/

/-- Claim C1: every write operation of the dual-write provider returns to
the caller exactly the primary result; the secondary outcome is an
`Option` produced by the exception-absorbing background task and never
appears in the returned value, so in particular a primary success is
reported as success whatever the secondary does. -/
theorem c1_dual_write_primary_authority (p s : ProviderOps)
    (doc : VectorDocument) (docs : List VectorDocument) (id mid : String)
    (ids : List String) (md : VectorMetadata) :
    (dualStore p s doc).1 = p.store doc
    ∧ (dualStoreBatch p s docs).1 = p.store_batch docs
    ∧ (dualDelete p s id).1 = p.delete id
    ∧ (dualDeleteBatch p s ids).1 = p.delete_batch ids
    ∧ (dualDeleteByMeetingId p s mid).1 = p.delete_by_meeting_id mid
    ∧ (dualUpdateMetadata p s id md).1 = p.update_metadata id md
    ∧ (∀ r, p.store_batch docs = Except.ok r → (dualStoreBatch p s docs).1 = Except.ok r) :=
  ⟨rfl, rfl, rfl, rfl, rfl, rfl, fun _ h => h⟩

/-- Witness for C1: a primary that succeeds paired with a secondary whose
every operation raises still reports the primary success. -/
theorem c1_dual_write_primary_authority_witness :
    (dualStoreBatch
        { store := fun _ => .ok (), store_batch := fun ds => .ok ⟨ds.length, 0, none⟩,
          delete := fun _ => .ok (), delete_batch := fun is => .ok ⟨is.length, 0, none⟩,
          delete_by_meeting_id := fun _ => .ok ⟨0, 0, none⟩,
          update_metadata := fun _ _ => .ok () }
        { store := fun _ => .error "boom", store_batch := fun _ => .error "boom",
          delete := fun _ => .error "boom", delete_batch := fun _ => .error "boom",
          delete_by_meeting_id := fun _ => .error "boom",
          update_metadata := fun _ _ => .error "boom" }
        [dummyDoc]).1 = Except.ok ⟨1, 0, none⟩ :=
  (c1_dual_write_primary_authority _ _ dummyDoc [dummyDoc] "" "" [] (mdOf "" "" none)).2.2.2.2.2.2
    ⟨1, 0, none⟩ rfl

/-! ## Claim C8 -/

/-- Claim C8: `delete_by_meeting_id` for a meeting with zero stored
vectors returns `successful=0, failed=0` and no error, on both adapters;
on the managed-cloud (S3 Vectors) adapter, when the filtered listing
returns keys they are deleted via `delete_batch`. -/
theorem c8_delete_by_meeting_zero
    (deleteReq : List String → Except String Unit) (mid : String)
    (ruvResp : Except String (Option Nat))
    (hz : ruvResp = Except.ok none ∨ ruvResp = Except.ok (some 0)) :
    s3DeleteByMeetingId (Except.ok []) deleteReq mid = { successful := 0, failed := 0 }
    ∧ (∀ keys : List String, keys ≠ [] →
        s3DeleteByMeetingId (Except.ok keys) deleteReq mid = s3DeleteBatch deleteReq keys)
    ∧ ruvDeleteByMeetingId ruvResp mid = { successful := 0, failed := 0 } := by
  refine ⟨rfl, ?_, ?_⟩
  · intro keys hk
    unfold s3DeleteByMeetingId
    simp [List.isEmpty_iff, hk]
  · rcases hz with h | h <;> rw [h] <;> rfl

/-- Witness for C8 with a concrete backend. -/
theorem c8_delete_by_meeting_zero_witness :
    s3DeleteByMeetingId (Except.ok []) (fun _ => Except.ok ()) "m1" =
      { successful := 0, failed := 0 }
    ∧ ruvDeleteByMeetingId (Except.ok (some 0)) "m1" = { successful := 0, failed := 0 } :=
  ⟨(c8_delete_by_meeting_zero (fun _ => Except.ok ()) "m1" (Except.ok (some 0)) (Or.inr rfl)).1,
   (c8_delete_by_meeting_zero (fun _ => Except.ok ()) "m1" (Except.ok (some 0)) (Or.inr rfl)).2.2⟩

/-! ## Claim C9 -/

/-- Claim C9: resolving provider type `ab-router` or `mock` fails fast
with a NotImplemented signal; a type outside the declared set fails with a
configuration (value) error, whether passed directly or read from the
environment; and a successful creation only ever yields the provider the
requested type names, never a fallback. -/
theorem c9_factory_fail_fast (env : Option String) :
    (∃ m, createMemoryProvider (some "ab-router") env =
        Except.error (FactoryError.notImplemented m))
    ∧ (∃ m, createMemoryProvider (some "mock") env =
        Except.error (FactoryError.notImplemented m))
    ∧ (∀ t, t ∉ validTypes → t ≠ "" →
        ∃ m, createMemoryProvider (some t) env = Except.error (FactoryError.valueError m))
    ∧ (∀ e, e ∉ validTypes →
        ∃ m, createMemoryProvider none (some e) = Except.error (FactoryError.valueError m))
    ∧ (∀ t p, t ≠ "" → createMemoryProvider (some t) env = Except.ok p →
        (t = "s3-vectors" ∧ p = CreatedProvider.s3vectors)
        ∨ (t = "ruvector" ∧ p = CreatedProvider.ruvector)
        ∨ (t = "dual" ∧ p = CreatedProvider.dual)) := by
  refine ⟨⟨_, rfl⟩, ⟨_, rfl⟩, ?_, ?_, ?_⟩
  · intro t ht hne
    simp only [validTypes, List.mem_cons, List.not_mem_nil, or_false, not_or] at ht
    obtain ⟨h1, h2, h3, h4, h5⟩ := ht
    refine ⟨"Unknown memory provider type: " ++ t, ?_⟩
    simp [createMemoryProvider, hne, h1, h2, h3, h4, h5]
  · intro e he
    refine ⟨"Invalid MEMORY_PROVIDER: " ++ e, ?_⟩
    have hgp : getProviderType (some e) =
        Except.error (FactoryError.valueError ("Invalid MEMORY_PROVIDER: " ++ e)) := by
      unfold getProviderType
      simp [he]
    simp [createMemoryProvider, hgp]
  · intro t p hne hok
    simp only [createMemoryProvider, hne, if_false] at hok
    by_cases h1 : t = "s3-vectors"
    · subst h1; exact Or.inl ⟨rfl, by simpa [createMemoryProvider] using hok.symm⟩
    · by_cases h2 : t = "ruvector"
      · subst h2; exact Or.inr (Or.inl ⟨rfl, by simpa [createMemoryProvider] using hok.symm⟩)
      · by_cases h3 : t = "dual"
        · subst h3; exact Or.inr (Or.inr ⟨rfl, by simpa [createMemoryProvider] using hok.symm⟩)
        · exfalso
          by_cases h4 : t = "ab-router"
          · subst h4; simp at hok
          · by_cases h5 : t = "mock"
            · subst h5; simp at hok
            · simp [h1, h2, h3, h4, h5] at hok

/-- Witness for C9 at an undeclared provider type. -/
theorem c9_factory_fail_fast_witness :
    ∃ m, createMemoryProvider (some "pinecone") none =
      Except.error (FactoryError.valueError m) :=
  (c9_factory_fail_fast none).2.2.1 "pinecone" (by decide) (by decide)

/-! ## Claim C2 -/

/-- The accounting invariant of the sub-batching loop, for every start
index and sufficient fuel: counts sum to the number of remaining
documents, the failed count equals the number of error entries, and every
error entry carries the id of an input document. -/
theorem storeBatchLoop_invariant (req : List VectorDocument → Except String Unit)
    (bs : Nat) (hbs : 0 < bs) (docs : List VectorDocument) :
    ∀ fuel i, docs.length - i ≤ fuel →
      (storeBatchLoop req bs docs (rangeLoop docs.length bs fuel i)).1
          + (storeBatchLoop req bs docs (rangeLoop docs.length bs fuel i)).2.1
        = docs.length - i
      ∧ (storeBatchLoop req bs docs (rangeLoop docs.length bs fuel i)).2.1
        = (storeBatchLoop req bs docs (rangeLoop docs.length bs fuel i)).2.2.length
      ∧ ∀ e ∈ (storeBatchLoop req bs docs (rangeLoop docs.length bs fuel i)).2.2,
          e.1 ∈ docs.map (fun d => d.id) := by
  intro fuel
  induction fuel with
  | zero =>
    intro i h
    simp only [rangeLoop, storeBatchLoop]
    refine ⟨by omega, rfl, by simp⟩
  | succ fuel ih =>
    intro i h
    by_cases hi : i < docs.length
    · rw [rangeLoop]
      simp only [hi, if_true]
      obtain ⟨ihsum, ihlen, ihmem⟩ := ih (i + bs) (by omega)
      have hbatch : ((docs.drop i).take bs).length = min bs (docs.length - i) := by
        simp [Nat.min_comm]
      have hmem : ∀ d ∈ (docs.drop i).take bs, d.id ∈ docs.map (fun d => d.id) := by
        intro d hd
        exact List.mem_map_of_mem _ (List.mem_of_mem_drop (List.mem_of_mem_take hd))
      cases hreq : req ((docs.drop i).take bs) with
      | ok u =>
        simp only [storeBatchLoop, hreq]
        refine ⟨by omega, ihlen, ihmem⟩
      | error msg =>
        simp only [storeBatchLoop, hreq]
        refine ⟨by omega, ?_, ?_⟩
        · simp only [List.length_append, List.length_map]
          omega
        · intro e he
          rcases List.mem_append.mp he with he | he
          · obtain ⟨d, hd, rfl⟩ := List.mem_map.mp he
            exact hmem d hd
          · exact ihmem e he
    · rw [rangeLoop]
      simp only [hi, if_false]
      simp only [storeBatchLoop]
      refine ⟨by omega, rfl, by simp⟩

/-- Claim C2: on both backend adapters, `store_batch` and `delete_batch`
return a `BatchResult` whose successful and failed counts sum to the input
length, with one `(id, error)` entry per failed item, the ids drawn from
the input. -/
theorem c2_batch_accounting
    (put : List VectorDocument → Except String Unit) (del : List String → Except String Unit)
    (batchSize : Nat) (hbs : 0 < batchSize)
    (docs : List VectorDocument) (ids : List String) :
    ((ruvStoreBatch put batchSize docs).successful + (ruvStoreBatch put batchSize docs).failed
        = docs.length
      ∧ (ruvStoreBatch put batchSize docs).failed
        = (errList (ruvStoreBatch put batchSize docs)).length
      ∧ ∀ e ∈ errList (ruvStoreBatch put batchSize docs), e.1 ∈ docs.map (fun d => d.id))
    ∧ s3StoreBatch put batchSize docs = ruvStoreBatch put batchSize docs
    ∧ ((ruvDeleteBatch del ids).successful + (ruvDeleteBatch del ids).failed = ids.length
      ∧ (ruvDeleteBatch del ids).failed = (errList (ruvDeleteBatch del ids)).length
      ∧ ∀ e ∈ errList (ruvDeleteBatch del ids), e.1 ∈ ids)
    ∧ s3DeleteBatch del ids = ruvDeleteBatch del ids := by
  obtain ⟨hsum, hlen, hmem⟩ :=
    storeBatchLoop_invariant put batchSize hbs docs docs.length 0 (by omega)
  refine ⟨⟨?_, ?_, ?_⟩, rfl, ⟨?_, ?_, ?_⟩, rfl⟩
  · show (storeBatchRun put batchSize docs).successful
        + (storeBatchRun put batchSize docs).failed = docs.length
    unfold storeBatchRun rangeStep
    simpa using hsum
  · show (storeBatchRun put batchSize docs).failed
        = (errList (storeBatchRun put batchSize docs)).length
    unfold storeBatchRun rangeStep errList
    by_cases hz :
        (storeBatchLoop put batchSize docs (rangeLoop docs.length batchSize docs.length 0)).2.2
          = []
    · simp only [hz, List.isEmpty_nil, if_true]
      rw [hlen, hz]
      rfl
    · simp only [List.isEmpty_iff, hz, if_false]
      exact hlen
  · show ∀ e ∈ errList (storeBatchRun put batchSize docs), e.1 ∈ docs.map (fun d => d.id)
    intro e he
    apply hmem
    unfold storeBatchRun errList rangeStep at he
    by_cases hz :
        (storeBatchLoop put batchSize docs (rangeLoop docs.length batchSize docs.length 0)).2.2
          = []
    · simp [hz] at he
    · simpa [List.isEmpty_iff, hz] using he
  · show (deleteBatchRun del ids).successful + (deleteBatchRun del ids).failed = ids.length
    unfold deleteBatchRun
    cases del ids <;> simp
  · show (deleteBatchRun del ids).failed = (errList (deleteBatchRun del ids)).length
    unfold deleteBatchRun errList
    cases del ids <;> simp
  · show ∀ e ∈ errList (deleteBatchRun del ids), e.1 ∈ ids
    unfold deleteBatchRun errList
    cases del ids with
    | ok u => simp
    | error msg =>
      intro e he
      simp only [Option.getD_some] at he
      obtain ⟨x, hx, rfl⟩ := List.mem_map.mp he
      exact hx

/-- Witness for C2: three documents in sub-batches of two, the first
sub-batch failing, plus a failing two-id delete. -/
theorem c2_batch_accounting_witness :
    (ruvStoreBatch (fun b => if b.length = 2 then Except.error "boom" else Except.ok ()) 2
        [dummyDoc, dummyDoc, dummyDoc]).successful
      + (ruvStoreBatch (fun b => if b.length = 2 then Except.error "boom" else Except.ok ()) 2
        [dummyDoc, dummyDoc, dummyDoc]).failed = 3 :=
  (c2_batch_accounting (fun b => if b.length = 2 then Except.error "boom" else Except.ok ())
    (fun _ => Except.error "down") 2 (by decide) [dummyDoc, dummyDoc, dummyDoc] ["a", "b"]).1.1

/-! ## Claim C7 -/

/-- The RuVector search post-processing is the min-score filter followed by
the item-to-result conversion. -/
theorem ruvSearch_eq_filter_map (backend : RuvQuery → List RuvQueryItem)
    (embedding : List ℚ) (opts : SearchOptions) :
    ruvSearch backend embedding opts =
      ((backend (ruvQueryOf embedding opts)).filter (fun item =>
          match opts.min_score with
          | some m => !decide (item.score.getD 0 < m)
          | none => true)).map (fun item =>
        { id := item.id, score := item.score.getD 0, metadata := item.metadata,
          vector := item.vector }) := by
  unfold ruvSearch
  generalize backend (ruvQueryOf embedding opts) = resp
  induction resp with
  | nil => cases opts.min_score <;> rfl
  | cons item rest ih =>
    cases hms : opts.min_score with
    | none =>
      simp only [hms] at ih
      simp [List.filterMap_cons, List.filter_cons, ih]
    | some m =>
      simp only [hms] at ih
      by_cases hlt : item.score.getD 0 < m
      · simp [List.filterMap_cons, List.filter_cons, hlt, ih]
      · simp [List.filterMap_cons, List.filter_cons, hlt, ih]

/-- Without a min-score bound, the S3 search is just the enumeration with
derived scores. -/
theorem s3Search_none (backend : S3Query → List S3QueryItem) (embedding : List ℚ)
    (opts : SearchOptions) (h : opts.min_score = none) :
    s3Search backend embedding opts =
      (backend (s3QueryOf embedding opts)).enum.map (fun p =>
        { id := p.2.key, score := s3EffScore p.1 p.2.score, metadata := p.2.metadata,
          vector := none }) := by
  unfold s3Search
  rw [h]

/-- With a min-score bound, the S3 search filters the enumerated results. -/
theorem s3Search_some (backend : S3Query → List S3QueryItem) (embedding : List ℚ)
    (opts : SearchOptions) (m : ℚ) (h : opts.min_score = some m) :
    s3Search backend embedding opts =
      ((backend (s3QueryOf embedding opts)).enum.map (fun p =>
        ({ id := p.2.key, score := s3EffScore p.1 p.2.score, metadata := p.2.metadata,
           vector := none } : SearchResult))).filter (fun r => decide (m ≤ r.score)) := by
  unfold s3Search
  rw [h]

/-- Counterexample to claim C7 as stated: at `options.top_k = 0` the
adapters request `opts.top_k or 10` = 10 results from the backend, so a
backend that honestly answers the query it receives makes `search` return
more than `options.top_k` entries. -/
theorem c7_counterexample :
    SearchOptions.top_k { top_k := 0 } = 0
    ∧ (ruvQueryOf [1] { top_k := 0 }).top_k = 10
    ∧ (ruvSearch (fun q =>
          if q.top_k = 0 then []
          else [{ id := "a", score := some 5, metadata := mdOf "m1" "k" none,
                  vector := none }])
        [1] { top_k := 0 }).length = 1
    ∧ ¬((1 : Nat) ≤ 0) := by
  refine ⟨by decide, by decide, by decide, by decide⟩

/-- Claim C7, amended: on both backend adapters, `search` returns results
in descending score order, truncated to at most the top-k actually
requested from the backend — `options.top_k`, except that a falsy
`top_k = 0` is replaced by 10 (`opts.top_k or 10`) — and all meeting
`min_score` when it is given (applied as a post-query filter).  This holds
under the modelling assumption that the external backend honours its
top-K contract, answering the query with at most the requested number of
results, in descending effective-score order. -/
theorem c7_search_contract
    (rBackend : RuvQuery → List RuvQueryItem) (sBackend : S3Query → List S3QueryItem)
    (embedding : List ℚ) (opts : SearchOptions)
    (hrLen : (rBackend (ruvQueryOf embedding opts)).length
      ≤ (ruvQueryOf embedding opts).top_k)
    (hrSorted : ((rBackend (ruvQueryOf embedding opts)).map
        (fun it => it.score.getD 0)).Pairwise (fun a b => b ≤ a))
    (hsLen : (sBackend (s3QueryOf embedding opts)).length
      ≤ (s3QueryOf embedding opts).topK)
    (hsSorted : ((sBackend (s3QueryOf embedding opts)).enum.map
        (fun p => s3EffScore p.1 p.2.score)).Pairwise (fun a b => b ≤ a)) :
    (((ruvSearch rBackend embedding opts).map (fun r => r.score)).Pairwise (fun a b => b ≤ a)
      ∧ (ruvSearch rBackend embedding opts).length
          ≤ (if opts.top_k = 0 then 10 else opts.top_k)
      ∧ ∀ r ∈ ruvSearch rBackend embedding opts,
          ∀ m, opts.min_score = some m → m ≤ r.score)
    ∧ (((s3Search sBackend embedding opts).map (fun r => r.score)).Pairwise (fun a b => b ≤ a)
      ∧ (s3Search sBackend embedding opts).length
          ≤ (if opts.top_k = 0 then 10 else opts.top_k)
      ∧ ∀ r ∈ s3Search sBackend embedding opts,
          ∀ m, opts.min_score = some m → m ≤ r.score) := by
  constructor
  · rw [ruvSearch_eq_filter_map]
    refine ⟨?_, ?_, ?_⟩
    · rw [List.map_map]
      exact List.Pairwise.sublist ((List.filter_sublist _).map _) hrSorted
    · calc (((rBackend (ruvQueryOf embedding opts)).filter _).map _).length
          ≤ (rBackend (ruvQueryOf embedding opts)).length := by
            simpa using List.length_filter_le _ _
        _ ≤ (ruvQueryOf embedding opts).top_k := hrLen
        _ = (if opts.top_k = 0 then 10 else opts.top_k) := rfl
    · intro r hr m hm
      obtain ⟨item, hitem, rfl⟩ := List.mem_map.mp hr
      have hpass := (List.mem_filter.mp hitem).2
      rw [hm] at hpass
      simpa [not_lt] using hpass
  · cases hms : opts.min_score with
    | none =>
      rw [s3Search_none _ _ _ hms]
      refine ⟨?_, ?_, ?_⟩
      · rw [List.map_map]
        exact hsSorted
      · calc ((sBackend (s3QueryOf embedding opts)).enum.map _).length
            ≤ (s3QueryOf embedding opts).topK := by simpa using hsLen
          _ = (if opts.top_k = 0 then 10 else opts.top_k) := rfl
      · intro r hr m hm
        simp at hm
    | some m =>
      rw [s3Search_some _ _ _ m hms]
      refine ⟨?_, ?_, ?_⟩
      · refine List.Pairwise.sublist ((List.filter_sublist _).map _) ?_
        rw [List.map_map]
        exact hsSorted
      · calc (((sBackend (s3QueryOf embedding opts)).enum.map _).filter _).length
            ≤ ((sBackend (s3QueryOf embedding opts)).enum.map _).length :=
              List.length_filter_le _ _
          _ ≤ (s3QueryOf embedding opts).topK := by simpa using hsLen
          _ = (if opts.top_k = 0 then 10 else opts.top_k) := rfl
      · intro r hr m₀ hm
        have hpass := (List.mem_filter.mp hr).2
        obtain rfl : m = m₀ := by injection hm
        simpa using hpass

/-- Witness for C7 with a two-item descending backend response at
`top_k = 10`. -/
theorem c7_search_contract_witness :
    (ruvSearch (fun _ => [{ id := "a", score := some 5, metadata := mdOf "m1" "k" none,
                            vector := none },
                          { id := "b", score := some 3, metadata := mdOf "m1" "k" none,
                            vector := none }])
        [1] { top_k := 10, min_score := some 4 }).length
      ≤ (if (SearchOptions.top_k { top_k := 10, min_score := some 4 }) = 0 then 10
         else SearchOptions.top_k { top_k := 10, min_score := some 4 }) :=
  (c7_search_contract
    (fun _ => [{ id := "a", score := some 5, metadata := mdOf "m1" "k" none, vector := none },
               { id := "b", score := some 3, metadata := mdOf "m1" "k" none, vector := none }])
    (fun _ => []) [1] { top_k := 10, min_score := some 4 }
    (by decide) (by decide) (by decide) (by decide)).1.2.1

/-! ## Claim C5 (corrected) -/

/-- Counterexample to claim C5 as stated: the speaker filter does not
exclude the placeholder "Participant" nor one-character names, and with no
real names the speaker metadata is "unknown", not the first raw speaker
label ("Speaker 1"). -/
theorem c5_counterexample :
    realSpeakers ["Participant"] = ["Participant"]
    ∧ realSpeakers ["J"] = ["J"]
    ∧ ((((processTranscript (fun _ => []) (fun docs => ⟨docs.length, 0, none⟩) "m" "k"
          "hi there" (some ["Speaker 1"]) none).storedBatches.getD 0 []).getD 0
            dummyDoc).metadata.speaker = some "unknown")
    ∧ (some "unknown" : Option String) ≠ some "Speaker 1" := by
  refine ⟨by decide, by decide, by decide, by decide⟩

/-- Claim C5, amended: the speakers list is filtered to real names by
excluding empty strings, values whose lowercase form starts with
"speaker ", and the placeholders "unknown" and "guest" (but not
"participant", and not short names); when real names remain, the embedding
input of every chunk — but not its stored text metadata, which is the
chunk truncated to 500 characters — is prefixed with
"Meeting participants: {comma-joined names}. "; and the speaker metadata
field is the first real name, else "unknown". -/
theorem c5_speaker_handling (embed : String → List ℚ)
    (storeB : List VectorDocument → BatchResult) (mid key content : String)
    (speakers : List String) (uid : Option String)
    (hch : mpChunkTextDefault content ≠ []) :
    (∀ s, s ∈ realSpeakers speakers ↔
        s ∈ speakers ∧ s.data.isEmpty = false
          ∧ ("speaker ".data).isPrefixOf (lowerStr s).data = false
          ∧ (lowerStr s == "unknown") = false ∧ (lowerStr s == "guest") = false)
    ∧ (processTranscript embed storeB mid key content (some speakers) uid).embedInputs
        = (mpChunkTextDefault content).map (fun c =>
            (if (realSpeakers speakers).isEmpty then ""
             else "Meeting participants: "
                ++ String.intercalate ", " (realSpeakers speakers) ++ ". ") ++ c)
    ∧ ∃ docs,
        (processTranscript embed storeB mid key content (some speakers) uid).storedBatches
            = [docs]
        ∧ (processTranscript embed storeB mid key content (some speakers) uid).result
            = storeB docs
        ∧ docs.length = (mpChunkTextDefault content).length
        ∧ ∀ i, i < docs.length →
            (docs.getD i dummyDoc).metadata.text
                = some (strTake ((mpChunkTextDefault content).getD i "") 500)
            ∧ (docs.getD i dummyDoc).metadata.speaker
                = some (match realSpeakers speakers with | [] => "unknown" | s :: _ => s)
            ∧ (docs.getD i dummyDoc).vector
                = embed ((if (realSpeakers speakers).isEmpty then ""
                    else "Meeting participants: "
                      ++ String.intercalate ", " (realSpeakers speakers) ++ ". ")
                  ++ (mpChunkTextDefault content).getD i "") := by
  have hne : ¬((mpChunkTextDefault content).isEmpty = true) := by
    rw [List.isEmpty_iff]
    exact hch
  refine ⟨?_, ?_, ?_⟩
  · intro s
    simp only [realSpeakers, List.mem_filter, Bool.and_eq_true, Bool.not_eq_true',
      and_assoc]
  · unfold processTranscript
    rw [if_neg hne]
    rfl
  · refine ⟨(mpChunkTextDefault content).enum.map (fun p =>
      ({ id := mid ++ "_chunk_" ++ pad4 p.1,
         vector := embed
           ((if (realSpeakers speakers).isEmpty then ""
             else "Meeting participants: "
               ++ String.intercalate ", " (realSpeakers speakers) ++ ". ") ++ p.2),
         metadata := { meeting_id := mid, s3_key := key, chunk_index := p.1,
                       speaker := some (match realSpeakers speakers with
                         | [] => "unknown" | s :: _ => s),
                       text := some (strTake p.2 500),
                       user_id := uid } } : VectorDocument)), ?_, ?_, ?_, ?_⟩
    · unfold processTranscript
      rw [if_neg hne]
      rfl
    · unfold processTranscript
      rw [if_neg hne]
      rfl
    · simp
    · intro i hi
      have hi' : i < (mpChunkTextDefault content).length := by
        simpa using hi
      have hienum : i < (mpChunkTextDefault content).enum.length := by
        simpa [List.enum_length] using hi'
      rw [List.getD_eq_getElem _ _ hi, List.getD_eq_getElem _ _ hi']
      refine ⟨?_, ?_, ?_⟩
      · rw [List.getElem_map]
        simp [List.getElem_enum]
      · rw [List.getElem_map]
      · rw [List.getElem_map]
        simp [List.getElem_enum]

/-- Witness for C5 on the example of the specification. -/
theorem c5_speaker_handling_witness :
    realSpeakers ["Speaker 1", "Unknown", "Jane Doe"] = ["Jane Doe"]
    ∧ (processTranscript (fun _ => []) (fun docs => ⟨docs.length, 0, none⟩) "m" "k" "hello world"
        (some ["Speaker 1", "Unknown", "Jane Doe"]) none).embedInputs
      = ["Meeting participants: Jane Doe. hello world"] :=
  ⟨by decide,
   ((c5_speaker_handling (fun _ => []) (fun docs => ⟨docs.length, 0, none⟩) "m" "k" "hello world"
      ["Speaker 1", "Unknown", "Jane Doe"] none (by decide)).2.1).trans (by decide)⟩

/-! ## Claim C4 (corrected) -/

theorem chunkLoop_stop (words : List α) (cs ov : Nat) (fuel start : Nat)
    (h : words.length ≤ start) : chunkLoop words cs ov fuel start = [] := by
  cases fuel <;> simp [chunkLoop, Nat.not_lt.mpr h]

theorem chunkLoop_ne_nil (words : List α) (cs ov : Nat) (fuel start : Nat)
    (h : chunkLoop words cs ov fuel start ≠ []) : start < words.length := by
  by_contra hc
  exact h (chunkLoop_stop words cs ov fuel start (Nat.not_lt.mp hc))

/-- Coverage invariant of the chunking loop: with positive step and enough
fuel, every word at an index at or past the current start lands in some
emitted chunk. -/
theorem chunkLoop_coverage (words : List α) (cs ov : Nat) (hov : ov < cs) :
    ∀ fuel start, words.length - start ≤ fuel →
      ∀ i, ∀ h : i < words.length, start ≤ i →
        ∃ c ∈ chunkLoop words cs ov fuel start, words.get ⟨i, h⟩ ∈ c := by
  intro fuel
  induction fuel with
  | zero =>
    intro start hf i h hsi
    omega
  | succ fuel ih =>
    intro start hf i h hsi
    have hstart : start < words.length := by omega
    rw [chunkLoop]
    simp only [hstart, if_true]
    by_cases hin : i < start + (cs - ov)
    · refine ⟨(words.drop start).take cs, List.mem_cons_self _ _, ?_⟩
      have hlt : i - start < ((words.drop start).take cs).length := by
        simp only [List.length_take, List.length_drop]
        omega
      have : ((words.drop start).take cs).get ⟨i - start, hlt⟩ = words.get ⟨i, h⟩ := by
        simp only [List.get_eq_getElem, List.getElem_take, List.getElem_drop]
        congr 1
        omega
      rw [← this]
      exact List.get_mem _ _ _
    · obtain ⟨c, hc, hmem⟩ := ih (start + (cs - ov)) (by omega) i h (by omega)
      exact ⟨c, List.mem_cons_of_mem _ hc, hmem⟩

/-- The exact-overlap invariant of the chunking loop, valid when
`2 * overlap ≤ chunk_size`: every pair of consecutive chunks other than
the final pair shares exactly `overlap` words. -/
theorem chunkLoop_overlap (words : List α) (cs ov : Nat) (hov : ov < cs)
    (hhalf : 2 * ov ≤ cs) :
    ∀ fuel start, words.length - start ≤ fuel →
      ∀ i, i + 2 < (chunkLoop words cs ov fuel start).length →
        sharesExactly ov ((chunkLoop words cs ov fuel start).getD i [])
          ((chunkLoop words cs ov fuel start).getD (i + 1) []) := by
  intro fuel
  induction fuel with
  | zero =>
    intro start hf i hlen
    simp [chunkLoop] at hlen
  | succ fuel ih =>
    intro start hf i hlen
    by_cases hstart : start < words.length
    · rw [chunkLoop] at hlen ⊢
      simp only [hstart, if_true] at hlen ⊢
      cases i with
      | succ j =>
        simp only [List.getD_cons_succ]
        refine ih (start + (cs - ov)) (by omega) j ?_
        simp only [List.length_cons] at hlen
        omega
      | zero =>
        simp only [List.getD_cons_succ, List.getD_cons_zero]
        have hrest : 1 < (chunkLoop words cs ov fuel (start + (cs - ov))).length := by
          simp only [List.length_cons] at hlen
          omega
        have h1 : start + (cs - ov) < words.length := by
          apply chunkLoop_ne_nil words cs ov fuel (start + (cs - ov))
          intro hnil
          rw [hnil] at hrest
          simp at hrest
        obtain ⟨fuel', rfl⟩ : ∃ f, fuel = f + 1 := by
          cases fuel with
          | zero => simp [chunkLoop] at hrest
          | succ f => exact ⟨f, rfl⟩
        rw [chunkLoop] at hrest
        simp only [h1, if_true, List.length_cons] at hrest
        have h2 : start + (cs - ov) + (cs - ov) < words.length := by
          apply chunkLoop_ne_nil words cs ov fuel' (start + (cs - ov) + (cs - ov))
          intro hnil
          rw [hnil] at hrest
          simp at hrest
        have hcsle : start + cs < words.length := by omega
        rw [chunkLoop]
        simp only [h1, if_true, List.getD_cons_zero]
        constructor
        · have hlen1 : ((words.drop start).take cs).length = cs := by
            rw [List.length_take, List.length_drop]
            omega
          have hmin : ov ⊓ cs = ov := inf_eq_left.mpr (Nat.le_of_lt hov)
          rw [hlen1, List.drop_take, List.drop_drop, List.take_take, hmin]
          congr 1
          omega
        · rw [List.length_take, List.length_take, List.length_drop]
          omega
    · rw [chunkLoop] at hlen
      simp [hstart] at hlen

/-- Counterexample to claim C4 as stated: six words with `chunk_size=4`,
`overlap=3` produce six chunks, and the pair at positions 3 and 4 — not
the last pair — shares only two words, not `overlap`. -/
theorem c4_counterexample :
    3 + 2 < (epChunkWords ([0, 1, 2, 3, 4, 5] : List Nat) 4 3).length
    ∧ ¬ sharesExactly 3 ((epChunkWords ([0, 1, 2, 3, 4, 5] : List Nat) 4 3).getD 3 [])
        ((epChunkWords ([0, 1, 2, 3, 4, 5] : List Nat) 4 3).getD 4 []) := by
  refine ⟨by decide, by decide⟩

/-- Claim C4, amended: for every non-empty word list and
`chunk_size > overlap ≥ 0`, every word appears in at least one chunk of
`chunk_text`; the exact-overlap guarantee — consecutive chunks share
exactly `overlap` words except possibly the last pair — holds under the
additional condition `2 * overlap ≤ chunk_size` (it fails for larger
overlaps away from the last pair). -/
theorem c4_chunking_coverage (words : List α) (cs ov : Nat)
    (hne : words ≠ []) (hov : ov < cs) :
    (∀ w ∈ words, ∃ c ∈ epChunkWords words cs ov, w ∈ c)
    ∧ (2 * ov ≤ cs → ∀ i, i + 2 < (epChunkWords words cs ov).length →
        sharesExactly ov ((epChunkWords words cs ov).getD i [])
          ((epChunkWords words cs ov).getD (i + 1) [])) := by
  unfold epChunkWords
  by_cases hlen : words.length ≤ cs
  · simp only [hlen, if_true, List.isEmpty_iff, hne, if_false]
    refine ⟨fun w hw => ⟨words, List.mem_cons_self _ _, hw⟩, fun _ i hi => ?_⟩
    simp at hi
  · simp only [hlen, if_false]
    unfold chunkWindows
    constructor
    · intro w hw
      obtain ⟨⟨i, hi⟩, rfl⟩ := List.mem_iff_get.mp hw
      exact chunkLoop_coverage words cs ov hov words.length 0 (by omega) i hi (by omega)
    · intro hhalf i hi
      exact chunkLoop_overlap words cs ov hov hhalf words.length 0 (by omega) i hi

/-- Witness for C4 on eight words with `chunk_size=4`, `overlap=2`. -/
theorem c4_chunking_coverage_witness :
    ∃ c ∈ epChunkWords ([10, 11, 12, 13, 14, 15, 16, 17] : List Nat) 4 2, 13 ∈ c :=
  (c4_chunking_coverage ([10, 11, 12, 13, 14, 15, 16, 17] : List Nat) 4 2
    (by decide) (by decide)).1 13 (by decide)

/-! ## Claim C3 (corrected) -/

theorem foldl_max_mem (s : ℚ) (l : List ℚ) : l.foldl max s ∈ s :: l := by
  induction l generalizing s with
  | nil => simp
  | cons a l ih =>
    rw [List.foldl_cons]
    have hmem := ih (max s a)
    rcases List.mem_cons.mp hmem with h2 | h2
    · rw [h2]
      rcases max_choice s a with h | h <;> simp [h]
    · simp [h2]

theorem le_foldl_max (s : ℚ) (l : List ℚ) :
    s ≤ l.foldl max s ∧ ∀ x ∈ l, x ≤ l.foldl max s := by
  induction l generalizing s with
  | nil => simp
  | cons a l ih =>
    rw [List.foldl_cons]
    obtain ⟨h1, h2⟩ := ih (max s a)
    refine ⟨le_trans (le_max_left s a) h1, ?_⟩
    intro x hx
    rcases List.mem_cons.mp hx with rfl | hx
    · exact le_trans (le_max_right s x) h1
    · exact h2 x hx

theorem maxScore_mem (l : List ℚ) (h : l ≠ []) : maxScore l ∈ l := by
  cases l with
  | nil => exact absurd rfl h
  | cons s rest =>
    have := foldl_max_mem s rest
    simpa [maxScore] using this

theorem le_maxScore (l : List ℚ) : ∀ x ∈ l, x ≤ maxScore l := by
  cases l with
  | nil => simp
  | cons s rest =>
    intro x hx
    rcases List.mem_cons.mp hx with rfl | hx
    · exact (le_foldl_max x rest).1
    · exact (le_foldl_max s rest).2 x hx

theorem keysOf_addResult_mem (m : List MeetingAgg) (r : SearchResult)
    (h : r.metadata.meeting_id ∈ keysOf m) : keysOf (addResult m r) = keysOf m := by
  induction m with
  | nil => simp [keysOf] at h
  | cons g rest ih =>
    by_cases hg : g.meeting_id = r.metadata.meeting_id
    · simp [addResult, hg, keysOf]
    · have hmem : r.metadata.meeting_id ∈ keysOf rest := by
        simp only [keysOf, List.map_cons, List.mem_cons] at h
        rcases h with h | h
        · exact absurd h.symm hg
        · exact h
      simp only [addResult, hg, if_false, keysOf, List.map_cons]
      rw [show (rest.map fun g => g.meeting_id) = keysOf rest from rfl, ← ih hmem]
      rfl

theorem addResult_not_mem (m : List MeetingAgg) (r : SearchResult)
    (h : r.metadata.meeting_id ∉ keysOf m) :
    addResult m r =
      m ++ [{ meeting_id := r.metadata.meeting_id, s3_key := r.metadata.s3_key,
              scores := [r.score], snippets := snippetOf r.metadata.text }] := by
  induction m with
  | nil => rfl
  | cons g rest ih =>
    have hg : ¬(g.meeting_id = r.metadata.meeting_id) := by
      intro he
      exact h (by simp [keysOf, he])
    have hrest : r.metadata.meeting_id ∉ keysOf rest := by
      intro hm
      exact h (by simp [keysOf] at hm ⊢; exact Or.inr hm)
    simp [addResult, hg, ih hrest]

theorem mem_addResult (m : List MeetingAgg) (r : SearchResult) (hnd : (keysOf m).Nodup)
    {g : MeetingAgg} (hg : g ∈ addResult m r) :
    (g ∈ m ∧ g.meeting_id ≠ r.metadata.meeting_id)
    ∨ (∃ g₀ ∈ m, g₀.meeting_id = r.metadata.meeting_id
        ∧ g = { g₀ with scores := g₀.scores ++ [r.score],
                        snippets := g₀.snippets ++ snippetOf r.metadata.text })
    ∨ (r.metadata.meeting_id ∉ keysOf m
        ∧ g = { meeting_id := r.metadata.meeting_id, s3_key := r.metadata.s3_key,
                scores := [r.score], snippets := snippetOf r.metadata.text }) := by
  induction m with
  | nil =>
    simp only [addResult, List.mem_singleton] at hg
    exact Or.inr (Or.inr ⟨by simp [keysOf], hg⟩)
  | cons g₁ rest ih =>
    have hnd1 : (keysOf rest).Nodup := by
      simp only [keysOf, List.map_cons, List.nodup_cons] at hnd
      exact hnd.2
    have hnotin : g₁.meeting_id ∉ keysOf rest := by
      simp only [keysOf, List.map_cons, List.nodup_cons] at hnd
      exact hnd.1
    by_cases h1 : g₁.meeting_id = r.metadata.meeting_id
    · simp only [addResult] at hg
      rw [if_pos h1] at hg
      rcases List.mem_cons.mp hg with rfl | hg
      · exact Or.inr (Or.inl ⟨g₁, List.mem_cons_self _ _, h1, rfl⟩)
      · have hgk : g.meeting_id ∈ keysOf rest := List.mem_map_of_mem _ hg
        refine Or.inl ⟨List.mem_cons_of_mem _ hg, ?_⟩
        intro he
        rw [← h1] at he
        exact hnotin (he ▸ hgk)
    · simp only [addResult, h1, if_false, List.mem_cons] at hg
      rcases hg with rfl | hg
      · exact Or.inl ⟨List.mem_cons_self _ _, h1⟩
      · rcases ih hnd1 hg with ⟨hm, hne⟩ | ⟨g₀, hg₀, heq, hupd⟩ | ⟨hnm, hnew⟩
        · exact Or.inl ⟨List.mem_cons_of_mem _ hm, hne⟩
        · exact Or.inr (Or.inl ⟨g₀, List.mem_cons_of_mem _ hg₀, heq, hupd⟩)
        · refine Or.inr (Or.inr ⟨?_, hnew⟩)
          simp only [keysOf, List.map_cons, List.mem_cons]
          rintro (he | he)
          · exact h1 he.symm
          · exact hnm he

theorem buildMeetingMap_append (rs : List SearchResult) (r : SearchResult) :
    buildMeetingMap (rs ++ [r]) =
      if r.metadata.meeting_id = "" then buildMeetingMap rs
      else addResult (buildMeetingMap rs) r := by
  unfold buildMeetingMap
  rw [List.foldl_append]
  rfl

theorem scoresFor_append (rs : List SearchResult) (r : SearchResult) (mid : String) :
    scoresFor (rs ++ [r]) mid =
      scoresFor rs mid ++ (if r.metadata.meeting_id = mid then [r.score] else []) := by
  unfold scoresFor
  rw [List.filter_append, List.map_append]
  congr 1
  by_cases h : r.metadata.meeting_id = mid <;> simp [List.filter, h]

theorem snippetsFor_append (rs : List SearchResult) (r : SearchResult) (mid : String) :
    snippetsFor (rs ++ [r]) mid =
      snippetsFor rs mid
        ++ (if r.metadata.meeting_id = mid then snippetOf r.metadata.text else []) := by
  unfold snippetsFor
  rw [List.filter_append, List.flatMap_append]
  congr 1
  by_cases h : r.metadata.meeting_id = mid <;> simp [List.filter, h]

theorem scoresFor_eq_nil (rs : List SearchResult) (mid : String)
    (h : ∀ r ∈ rs, r.metadata.meeting_id ≠ mid) :
    scoresFor rs mid = [] ∧ snippetsFor rs mid = [] := by
  have hf : rs.filter (fun r => r.metadata.meeting_id = mid) = [] := by
    rw [List.filter_eq_nil_iff]
    intro a ha
    simpa using h a ha
  unfold scoresFor snippetsFor
  rw [hf]
  exact ⟨rfl, rfl⟩

/-- The accumulated meeting map has pairwise-distinct keys; each group of
key `k` carries exactly the scores and the truthy snippet texts of the
results with meeting id `k`, in input order; and every non-empty meeting
id of the input owns a group. -/
theorem buildMeetingMap_invariant (results : List SearchResult) :
    (keysOf (buildMeetingMap results)).Nodup
    ∧ (∀ g ∈ buildMeetingMap results,
        g.meeting_id ≠ ""
        ∧ g.scores = scoresFor results g.meeting_id
        ∧ g.snippets = snippetsFor results g.meeting_id
        ∧ g.scores ≠ [])
    ∧ (∀ r ∈ results, r.metadata.meeting_id ≠ "" →
        r.metadata.meeting_id ∈ keysOf (buildMeetingMap results)) := by
  induction results using List.reverseRecOn with
  | nil => exact ⟨by simp [buildMeetingMap, keysOf], by simp [buildMeetingMap], by simp⟩
  | append_singleton rs r ih =>
    obtain ⟨ihnd, ihmem, ihcomp⟩ := ih
    rw [buildMeetingMap_append]
    by_cases hmid : r.metadata.meeting_id = ""
    · rw [if_pos hmid]
      refine ⟨ihnd, ?_, ?_⟩
      · intro g hg
        obtain ⟨h1, h2, h3, h4⟩ := ihmem g hg
        have hne : ¬(r.metadata.meeting_id = g.meeting_id) := by
          rw [hmid]
          exact fun he => h1 he.symm
        refine ⟨h1, ?_, ?_, h4⟩
        · rw [scoresFor_append, if_neg hne, List.append_nil, h2]
        · rw [snippetsFor_append, if_neg hne, List.append_nil, h3]
      · intro r' hr' hne
        rcases List.mem_append.mp hr' with h | h
        · exact ihcomp r' h hne
        · rw [List.mem_singleton] at h
          subst h
          exact absurd hmid hne
    · rw [if_neg hmid]
      by_cases hkey : r.metadata.meeting_id ∈ keysOf (buildMeetingMap rs)
      · refine ⟨?_, ?_, ?_⟩
        · rw [keysOf_addResult_mem _ _ hkey]
          exact ihnd
        · intro g hg
          rcases mem_addResult _ _ ihnd hg with ⟨hm, hgne⟩ | ⟨g₀, hg₀, hkeq, hupd⟩ | ⟨hnm, _⟩
          · obtain ⟨h1, h2, h3, h4⟩ := ihmem g hm
            have hne2 : ¬(r.metadata.meeting_id = g.meeting_id) := fun he => hgne he.symm
            exact ⟨h1, by rw [scoresFor_append, if_neg hne2, List.append_nil, h2],
              by rw [snippetsFor_append, if_neg hne2, List.append_nil, h3], h4⟩
          · obtain ⟨h1, h2, h3, h4⟩ := ihmem g₀ hg₀
            have hrg : r.metadata.meeting_id = g₀.meeting_id := hkeq.symm
            subst hupd
            refine ⟨?_, ?_, ?_, ?_⟩
            · show g₀.meeting_id ≠ ""
              exact h1
            · show g₀.scores ++ [r.score] = scoresFor (rs ++ [r]) g₀.meeting_id
              rw [scoresFor_append, if_pos hrg, h2]
            · show g₀.snippets ++ snippetOf r.metadata.text
                  = snippetsFor (rs ++ [r]) g₀.meeting_id
              rw [snippetsFor_append, if_pos hrg, h3]
            · show g₀.scores ++ [r.score] ≠ []
              simp
          · exact absurd hkey hnm
        · intro r' hr' hne
          rw [keysOf_addResult_mem _ _ hkey]
          rcases List.mem_append.mp hr' with h | h
          · exact ihcomp r' h hne
          · rw [List.mem_singleton] at h
            subst h
            exact hkey
      · rw [addResult_not_mem _ _ hkey]
        have hkeys : keysOf (buildMeetingMap rs
              ++ [{ meeting_id := r.metadata.meeting_id, s3_key := r.metadata.s3_key,
                    scores := [r.score], snippets := snippetOf r.metadata.text }])
            = keysOf (buildMeetingMap rs) ++ [r.metadata.meeting_id] := by
          simp [keysOf]
        have hnil : scoresFor rs r.metadata.meeting_id = []
            ∧ snippetsFor rs r.metadata.meeting_id = [] := by
          apply scoresFor_eq_nil
          intro r' hr' he
          have hne' : r'.metadata.meeting_id ≠ "" := by
            rw [he]
            exact hmid
          exact hkey (he ▸ ihcomp r' hr' hne')
        refine ⟨?_, ?_, ?_⟩
        · rw [hkeys, List.nodup_append]
          refine ⟨ihnd, List.nodup_singleton _, ?_⟩
          intro a ha hb
          rw [List.mem_singleton] at hb
          subst hb
          exact hkey ha
        · intro g hg
          rcases List.mem_append.mp hg with hm | hm
          · obtain ⟨h1, h2, h3, h4⟩ := ihmem g hm
            have hgk : g.meeting_id ∈ keysOf (buildMeetingMap rs) :=
              List.mem_map_of_mem _ hm
            have hne2 : ¬(r.metadata.meeting_id = g.meeting_id) :=
              fun he => hkey (he ▸ hgk)
            exact ⟨h1, by rw [scoresFor_append, if_neg hne2, List.append_nil, h2],
              by rw [snippetsFor_append, if_neg hne2, List.append_nil, h3], h4⟩
          · rw [List.mem_singleton] at hm
            subst hm
            refine ⟨hmid, ?_, ?_, by simp⟩
            · show [r.score] = scoresFor (rs ++ [r]) r.metadata.meeting_id
              rw [scoresFor_append, if_pos rfl, hnil.1, List.nil_append]
            · show snippetOf r.metadata.text
                  = snippetsFor (rs ++ [r]) r.metadata.meeting_id
              rw [snippetsFor_append, if_pos rfl, hnil.2, List.nil_append]
        · intro r' hr' hne
          rw [hkeys]
          rcases List.mem_append.mp hr' with h | h
          · exact List.mem_append_left _ (ihcomp r' h hne)
          · rw [List.mem_singleton] at h
            subst h
            exact List.mem_append_right _ (List.mem_singleton_self _)

/-- Counterexample to claim C3 as stated: for a meeting whose
lowest-scoring chunk arrives first, the produced snippets are the first
three texts in input order, not the texts of the three highest-scoring
chunks. -/
theorem c3_counterexample :
    (groupByMeeting exC3bad).map (fun g => g.snippets) = [["a", "b", "c"]]
    ∧ specTopSnippets exC3bad "m1" = ["b", "c", "d"]
    ∧ (["a", "b", "c"] : List String) ≠ ["b", "c", "d"] := by
  refine ⟨by decide, by decide, by decide⟩

/-- Claim C3, amended: `search_by_meeting` groups chunk results by
`metadata.meeting_id`, dropping empty meeting ids; each group scores the
maximum of its member scores and counts its members in `matching_chunks`;
`snippets` are the first up-to-3 truthy member texts in result order (not
the texts of the highest-scoring members); groups are sorted by descending
score, and every non-empty input meeting id appears as a group. -/
theorem c3_meeting_aggregation (results : List SearchResult) :
    (groupByMeeting results).Pairwise (fun a b => b.score ≤ a.score)
    ∧ (∀ g ∈ groupByMeeting results,
        g.meeting_id ≠ ""
        ∧ g.score ∈ scoresFor results g.meeting_id
        ∧ (∀ s ∈ scoresFor results g.meeting_id, s ≤ g.score)
        ∧ g.matching_chunks = (scoresFor results g.meeting_id).length
        ∧ g.snippets = (snippetsFor results g.meeting_id).take 3)
    ∧ (∀ r ∈ results, r.metadata.meeting_id ≠ "" →
        ∃ g ∈ groupByMeeting results, g.meeting_id = r.metadata.meeting_id) := by
  obtain ⟨hnd, hmem, hcomp⟩ := buildMeetingMap_invariant results
  refine ⟨?_, ?_, ?_⟩
  · exact List.sorted_insertionSort _ _
  · intro g hg
    have hg2 : g ∈ (buildMeetingMap results).map aggToResult :=
      ((List.perm_insertionSort _ _).mem_iff).mp hg
    obtain ⟨a, ha, rfl⟩ := List.mem_map.mp hg2
    obtain ⟨h1, h2, h3, h4⟩ := hmem a ha
    refine ⟨h1, ?_, ?_, ?_, ?_⟩
    · show maxScore a.scores ∈ scoresFor results a.meeting_id
      rw [← h2]
      exact maxScore_mem _ h4
    · show ∀ s ∈ scoresFor results a.meeting_id, s ≤ maxScore a.scores
      rw [← h2]
      exact le_maxScore _
    · show a.scores.length = (scoresFor results a.meeting_id).length
      rw [h2]
    · show a.snippets.take 3 = (snippetsFor results a.meeting_id).take 3
      rw [h3]
  · intro r hr hne
    obtain ⟨a, ha, haeq⟩ := List.mem_map.mp (hcomp r hr hne)
    exact ⟨aggToResult a,
      ((List.perm_insertionSort _ _).mem_iff).mpr (List.mem_map_of_mem _ ha), haeq⟩

/-- Witness for C3 on the (integer-scaled) example of the specification:
m1 with scores 9 and 4 precedes m2 with score 7, with two matching
chunks. -/
theorem c3_meeting_aggregation_witness :
    (∃ g ∈ groupByMeeting exC3, g.meeting_id = "m1")
    ∧ groupByMeeting exC3 =
      [{ meeting_id := "m1", s3_key := "k1", score := 9, matching_chunks := 2,
         snippets := ["t1", "t2"] },
       { meeting_id := "m2", s3_key := "k2", score := 7, matching_chunks := 1,
         snippets := ["t3"] }] :=
  ⟨(c3_meeting_aggregation exC3).2.2
      { id := "c1", score := 9, metadata := mdOf "m1" "k1" (some "t1") }
      (by decide) (by decide),
   by decide⟩

end KrispyMemory
